import Mathlib

/-!
Verification of the protocol command negotiation engine of `git-protocol`
and of object peeling in `git-repository`.

The negotiation engine (`Command::default_features`, `Command::initial_arguments`,
`Command::validate_argument_prefixes_or_panic` and the `Capabilities` parser of
`git-transport`) is present in the repository excerpt only through its unit
tests (`src/git-protocol/src/fetch/tests/command.rs`); its definitions below are
therefore modelled from the specification, with every behaviour the unit tests
pin down (exact outputs and their order) taken as authoritative.

`ObjectRef::peel_to_kind` is embedded directly from
`src/git-repository/src/object.rs`.
-/

namespace Grit

/-- Protocol version negotiated at handshake time (`git_transport::Protocol`). -/
inductive Protocol
  | V1
  | V2
deriving DecidableEq, Repr

/-- A server capability: a name together with an optional value. -/
abbrev Capability := String × Option String

/-- Modelled from the spec: `git_transport::client::Capabilities` (not under
`src/`) is an immutable view over the server's advertised capabilities,
supporting a presence test by name and value lookup. -/
structure Capabilities where
  entries : List Capability
deriving DecidableEq, Repr

/-- Split a character list at every occurrence of `sep` (keeping empty parts). -/
def splitOnChar (sep : Char) : List Char → List (List Char)
  | [] => [[]]
  | c :: cs =>
    if c = sep then [] :: splitOnChar sep cs
    else
      match splitOnChar sep cs with
      | [] => [[c]]
      | t :: ts => (c :: t) :: ts

/-- Split a character list at the first occurrence of `sep`, if any. -/
def splitFirst (sep : Char) : List Char → List Char × Option (List Char)
  | [] => ([], none)
  | c :: cs =>
    if c = sep then ([], some cs)
    else
      let r := splitFirst sep cs
      (c :: r.1, r.2)

/-- The whitespace-separated tokens of a string, empty tokens dropped. -/
def splitTokens (s : String) : List String :=
  ((splitOnChar ' ' s.data).map (fun cs => String.mk cs)).filter (fun t => !(t == ""))

/-- Modelled from the spec: parse one advertised capability token, either a
bare `name` or `name=value` (the value is everything after the first `=`). -/
def parseCapability (token : String) : Capability :=
  let r := splitFirst '=' token.data
  (String.mk r.1, r.2.map (fun cs => String.mk cs))

/-- Modelled from the spec: `Capabilities::from_bytes` parses a V1 flat
advertisement. The argument is the text after the leading NUL byte: a
space-separated list of `name` or `name=value` tokens. -/
def Capabilities.from_bytes (input : String) : Capabilities :=
  ⟨(splitTokens input).map parseCapability⟩

/-- Modelled from the spec: `Capabilities::from_lines` parses a V2
line-oriented advertisement, one `name=value` per line, with a leading
`version 2` marker line recognized and skipped. -/
def Capabilities.from_lines (input : String) : Capabilities :=
  ⟨(((splitOnChar '\n' input.data).map (fun cs => String.mk cs)).filter
      (fun l => !(l == "version 2") && !(l == ""))).map parseCapability⟩

/-- Does the set advertise a capability of this name? -/
def Capabilities.contains (caps : Capabilities) (name : String) : Bool :=
  caps.entries.any (fun c => c.1 == name)

/-- The optional value of the first capability of this name, when advertised. -/
def Capabilities.value (caps : Capabilities) (name : String) : Option (Option String) :=
  (caps.entries.find? (fun c => c.1 == name)).map Prod.snd

/-- A feature the client decided to activate: name plus optional value. -/
abbrev Feature := String × Option String

/-- Modelled from the spec: `fetch::agent()`, the client-identification
feature: fixed name `agent`, value a client version string. -/
def agent : Feature := ("agent", some ("git/oxide-0.8.0"))

/-- The closed set of supported request commands. -/
inductive Command
  | Fetch
  | LsRefs
deriving DecidableEq, Repr

/-- Modelled from the spec: `Command::as_str`, each command's wire name. -/
def Command.as_str : Command → String
  | .Fetch => "fetch"
  | .LsRefs => "ls-refs"

/-- Modelled from the spec: the canonical V1 candidate feature table of the
fetch command. `include-tag`, `no-progress` and symref advertisements are
intentionally absent. The relative order of the entries is fixed by the unit
tests in `src/git-protocol/src/fetch/tests/command.rs`, which pin the output
order `multi_ack, thin-pack, side-band, ofs-delta, shallow, deepen-since,
deepen-not, deepen-relative, allow-tip-sha1-in-want,
allow-reachable-sha1-in-want, no-done, filter` and, when both stacked
alternatives are advertised, `side-band-64k` before `multi_ack_detailed`. -/
def fetchFeaturesV1 : List String :=
  ["multi_ack", "thin-pack", "side-band", "side-band-64k", "ofs-delta", "shallow",
   "deepen-since", "deepen-not", "deepen-relative", "multi_ack_detailed",
   "allow-tip-sha1-in-want", "allow-reachable-sha1-in-want", "no-done", "filter"]

/-- Modelled from the spec: the recognized sub-feature tokens of the V2 fetch
command capability. -/
def fetchFeaturesV2 : List String :=
  ["shallow", "filter", "ref-in-want", "sideband-all", "packfile-uris"]

/-- Modelled from the spec: `Command::all_features`, the candidate feature
names of each command per protocol version; the ref-listing command has none. -/
def Command.all_features : Command → Protocol → List String
  | .Fetch, .V1 => fetchFeaturesV1
  | .Fetch, .V2 => fetchFeaturesV2
  | .LsRefs, _ => []

/-- Modelled from the spec: the V1 selection predicate. A candidate is kept
when the server advertises it, except that the lower-priority member of a
mutually-exclusive group is dropped whenever its higher-priority alternative
is advertised (`side-band` yields to `side-band-64k`, `multi_ack` yields to
`multi_ack_detailed`). -/
def keepFeatureV1 (caps : Capabilities) (f : String) : Bool :=
  caps.contains f
    && !(f == "side-band" && caps.contains ("side-band-64k"))
    && !(f == "multi_ack" && caps.contains ("multi_ack_detailed"))

/-- Modelled from the spec: the V2 sub-feature tokens of a command. The
capability named after the command's own wire name is looked up; when present
with a value, every recognized token of its whitespace-separated value is
kept in server order, unrecognized tokens being silently ignored. -/
def Command.v2Tokens (cmd : Command) (caps : Capabilities) : List String :=
  match caps.value cmd.as_str with
  | some (some v) => (splitTokens v).filter (fun t => (cmd.all_features .V2).contains t)
  | _ => []

/-- Modelled from the spec: `Command::default_features`. Under V1 the
candidate table is walked in its fixed order and filtered by
`keepFeatureV1`; under V2 the recognized tokens of the command-scoped
capability are taken in server order. In both cases exactly one `agent`
feature is appended last, unconditionally. -/
def Command.default_features (cmd : Command) (version : Protocol) (caps : Capabilities) :
    List Feature :=
  match version with
  | .V1 =>
      ((cmd.all_features .V1).filter (keepFeatureV1 caps)).map (fun s => (s, none)) ++ [agent]
  | .V2 =>
      (cmd.v2Tokens caps).map (fun s => (s, none)) ++ [agent]

/-- An argument: one line of the request body. -/
abbrev Argument := String

/-- Modelled from the spec: `Command::initial_arguments`. The fetch command
always emits `thin-pack`, `include-tag`, `ofs-delta` unconditionally, then
each of `sideband-all`, `ref-in-want`, `packfile-uris` (in that fixed order)
exactly when the same-named feature was selected; `shallow` and `filter`
never contribute a line. The ref-listing command always emits exactly
`symrefs` and `peel`, for every feature list (it takes no protocol version). -/
def Command.initial_arguments (cmd : Command) (features : List Feature) : List Argument :=
  match cmd with
  | .Fetch =>
      ["thin-pack", "include-tag", "ofs-delta"] ++
        (["sideband-all", "ref-in-want", "packfile-uris"].filter
          (fun f => features.any (fun x => x.1 == f)))
  | .LsRefs => ["symrefs", "peel"]

/-- Does `p` start the string `s`? -/
def strStartsWith (p s : String) : Bool :=
  p.data.isPrefixOf s.data

/-- Modelled from the spec: the per-(command, protocol-version) table of
permitted argument prefixes. The ref-listing command under V1 is an emulation
with no native prefix filtering, so `ref-prefix ` is absent there; under V2 it
is a baseline capability and always permitted. -/
def Command.all_argument_prefixes (cmd : Command) (version : Protocol) : List String :=
  match cmd, version with
  | .LsRefs, .V1 => ["symrefs", "peel"]
  | .LsRefs, .V2 => ["symrefs", "peel", "ref-prefix "]
  | .Fetch, _ => ["want ", "have ", "shallow ", "deepen ", "deepen-since ",
                  "deepen-not ", "deepen-relative", "filter "]

/-- Modelled from the spec: `Command::validate_argument_prefixes_or_panic`,
rendered as a Boolean precondition check (`false` is the fatal panic). Each
argument must carry one of the permitted prefixes of the
per-(command, protocol-version) table; the capability set and the feature
list never influence the decision. -/
def Command.validate_argument_prefixes_or_panic (cmd : Command) (version : Protocol)
    (_caps : Capabilities) (arguments : List Argument) (_features : List Feature) : Bool :=
  arguments.all (fun a => (cmd.all_argument_prefixes version).any (fun p => strStartsWith p a))

/-! ## Object peeling (`src/git-repository/src/object.rs`) -/

/-- `git_object::Kind`: the four object kinds. -/
inductive Kind
  | Commit
  | Tree
  | Blob
  | Tag
deriving DecidableEq, Repr

/-- An object as seen by `ObjectRef::peel_to_kind`: its id, its kind, and the
id it links to when peeled (a commit's tree id or a tag's target id, extracted
in the source by `to_commit_iter().tree_id()` / `to_tag_iter().target_id()`;
irrelevant for trees and blobs). -/
structure ObjectRef where
  id : Nat
  kind : Kind
  link : Nat
deriving DecidableEq, Repr

/-- `object::peel_to_kind::Error`: a lookup failure during peeling, or
reaching an object of the wrong kind that cannot be peeled further. -/
inductive PeelError
  | FindExisting (id : Nat)
  | NotFound (actual : Kind) (expected : Kind)
deriving DecidableEq, Repr

/-- `ext::access::object::find_existing_object`: look an object up in the
object database, a missing object being an error. -/
def find_existing_object (odb : Nat → Option ObjectRef) (id : Nat) :
    Except PeelError ObjectRef :=
  match odb id with
  | some o => Except.ok o
  | none => Except.error (PeelError.FindExisting id)

/-- `ObjectRef::peel_to_kind`: return the object as soon as its kind matches,
replace a commit by its tree and a tag by its target, and fail with `NotFound`
on a tree or blob of the wrong kind. The source's unbounded `loop` is rendered
with a fuel parameter bounding the number of peeling steps; `none` marks fuel
exhaustion (unreachable on the acyclic object graphs git's content addressing
produces). -/
def peel_to_kind (odb : Nat → Option ObjectRef) :
    Nat → Kind → ObjectRef → Option (Except PeelError ObjectRef)
  | fuel, kind, self =>
    if self.kind = kind then some (Except.ok self)
    else
      match self.kind, fuel with
      | Kind.Tree, _ => some (Except.error (PeelError.NotFound self.kind kind))
      | Kind.Blob, _ => some (Except.error (PeelError.NotFound self.kind kind))
      | Kind.Commit, 0 => none
      | Kind.Tag, 0 => none
      | Kind.Commit, fuel' + 1 =>
          match find_existing_object odb self.link with
          | Except.ok next => peel_to_kind odb fuel' kind next
          | Except.error e => some (Except.error e)
      | Kind.Tag, fuel' + 1 =>
          match find_existing_object odb self.link with
          | Except.ok next => peel_to_kind odb fuel' kind next
          | Except.error e => some (Except.error e)


/-- Stated from the spec's words, for comparison with the implementation-side
table `fetchFeaturesV1`: the claimed canonical V1 priority order, group
members adjacent with the higher-priority member first. -/
def specClaimedFetchOrder : List String :=
  ["multi_ack_detailed", "multi_ack", "thin-pack", "side-band-64k", "side-band", "ofs-delta",
   "shallow", "deepen-since", "deepen-not", "deepen-relative", "allow-tip-sha1-in-want",
   "allow-reachable-sha1-in-want", "no-done", "filter"]

/-- A three-object database: a tag pointing at a commit pointing at a tree. -/
def sampleOdb : Nat → Option ObjectRef
  | 0 => some ⟨0, Kind.Tag, 1⟩
  | 1 => some ⟨1, Kind.Commit, 2⟩
  | 2 => some ⟨2, Kind.Tree, 0⟩
  | _ => none

/-! ## Selection lemmas -/

lemma map_fst_default_features_v1 (cmd : Command) (caps : Capabilities) :
    (cmd.default_features .V1 caps).map Prod.fst
      = (cmd.all_features .V1).filter (keepFeatureV1 caps) ++ ["agent"] := by
  simp [Command.default_features, agent]
  exact List.map_id _

lemma map_fst_default_features_v2 (cmd : Command) (caps : Capabilities) :
    (cmd.default_features .V2 caps).map Prod.fst = cmd.v2Tokens caps ++ ["agent"] := by
  simp [Command.default_features, agent]
  exact List.map_id _

lemma v2Tokens_eq_of_value (cmd : Command) (caps : Capabilities) (v : String)
    (hv : caps.value cmd.as_str = some (some v)) :
    cmd.v2Tokens caps = (splitTokens v).filter (fun t => (cmd.all_features .V2).contains t) := by
  unfold Command.v2Tokens
  rw [hv]

lemma mem_v2Tokens (cmd : Command) (caps : Capabilities) (s : String)
    (h : s ∈ cmd.v2Tokens caps) : s ∈ cmd.all_features .V2 := by
  unfold Command.v2Tokens at h
  split at h
  · rcases List.mem_filter.mp h with ⟨h1, h2⟩
    simpa using h2
  · simp at h

lemma keepFeatureV1_contains (caps : Capabilities) (s : String)
    (h : keepFeatureV1 caps s = true) : caps.contains s = true := by
  simp [keepFeatureV1] at h
  exact h.1.1

lemma keepFeatureV1_multi_ack (caps : Capabilities)
    (h : keepFeatureV1 caps ("multi_ack") = true) :
    caps.contains ("multi_ack_detailed") = false := by
  simp [keepFeatureV1] at h
  exact h.2

lemma keepFeatureV1_side_band (caps : Capabilities)
    (h : keepFeatureV1 caps ("side-band") = true) :
    caps.contains ("side-band-64k") = false := by
  simp [keepFeatureV1] at h
  exact h.2
lemma mem_fst_default_features_v1 (cmd : Command) (caps : Capabilities) (s : String) :
    s ∈ (cmd.default_features .V1 caps).map Prod.fst
      ↔ (s ∈ cmd.all_features .V1 ∧ keepFeatureV1 caps s = true) ∨ s = "agent" := by
  rw [map_fst_default_features_v1]
  simp [List.mem_filter]

lemma mem_fst_default_features_v2 (cmd : Command) (caps : Capabilities) (s : String)
    (h : s ∈ (cmd.default_features .V2 caps).map Prod.fst) :
    s ∈ cmd.all_features .V2 ∨ s = "agent" := by
  rw [map_fst_default_features_v2] at h
  rcases List.mem_append.mp h with h | h
  · exact Or.inl (mem_v2Tokens _ _ _ h)
  · simp at h
    exact Or.inr h

lemma v2Tokens_lsrefs (caps : Capabilities) : Command.LsRefs.v2Tokens caps = [] := by
  unfold Command.v2Tokens
  split
  · apply List.filter_eq_nil_iff.mpr
    intro a _
    simp [Command.all_features]
  · rfl

lemma agent_not_mem_all_features (cmd : Command) (version : Protocol) :
    "agent" ∉ cmd.all_features version := by
  cases cmd <;> cases version <;> decide
/-- C1: for every command, every capability set and both protocol versions,
the feature sequence returned by `Command.default_features` never contains two
members of the same mutually-exclusive group: never both `multi_ack_detailed`
and `multi_ack`, and never both `side-band-64k` and `side-band`. -/
theorem default_features_mutually_exclusive_groups (cmd : Command) (version : Protocol)
    (caps : Capabilities) :
    ¬ ("multi_ack_detailed" ∈ (cmd.default_features version caps).map Prod.fst
        ∧ "multi_ack" ∈ (cmd.default_features version caps).map Prod.fst)
    ∧ ¬ ("side-band-64k" ∈ (cmd.default_features version caps).map Prod.fst
        ∧ "side-band" ∈ (cmd.default_features version caps).map Prod.fst) := by
  cases version with
  | V1 =>
    constructor
    · rintro ⟨hmad, hma⟩
      rcases (mem_fst_default_features_v1 cmd caps _).mp hma with ⟨_, hk⟩ | h
      · have hfalse := keepFeatureV1_multi_ack _ hk
        rcases (mem_fst_default_features_v1 cmd caps _).mp hmad with ⟨_, hk2⟩ | h2
        · have htrue := keepFeatureV1_contains _ _ hk2
          rw [htrue] at hfalse
          exact absurd hfalse (by decide)
        · exact absurd h2 (by decide)
      · exact absurd h (by decide)
    · rintro ⟨h64, hsb⟩
      rcases (mem_fst_default_features_v1 cmd caps _).mp hsb with ⟨_, hk⟩ | h
      · have hfalse := keepFeatureV1_side_band _ hk
        rcases (mem_fst_default_features_v1 cmd caps _).mp h64 with ⟨_, hk2⟩ | h2
        · have htrue := keepFeatureV1_contains _ _ hk2
          rw [htrue] at hfalse
          exact absurd hfalse (by decide)
        · exact absurd h2 (by decide)
      · exact absurd h (by decide)
  | V2 =>
    constructor
    · rintro ⟨hmad, _⟩
      rcases mem_fst_default_features_v2 cmd caps _ hmad with h | h
      · cases cmd <;> exact absurd h (by decide)
      · exact absurd h (by decide)
    · rintro ⟨h64, _⟩
      rcases mem_fst_default_features_v2 cmd caps _ h64 with h | h
      · cases cmd <;> exact absurd h (by decide)
      · exact absurd h (by decide)

/-- Witness for C1 at the layered V1 capability set of the unit tests. -/
theorem default_features_mutually_exclusive_groups_witness :
    ¬ ("multi_ack_detailed" ∈ (Command.Fetch.default_features Protocol.V1
          (Capabilities.from_bytes ("multi_ack side-band side-band-64k multi_ack_detailed"))).map
            Prod.fst
        ∧ "multi_ack" ∈ (Command.Fetch.default_features Protocol.V1
          (Capabilities.from_bytes ("multi_ack side-band side-band-64k multi_ack_detailed"))).map
            Prod.fst) :=
  (default_features_mutually_exclusive_groups Command.Fetch Protocol.V1
    (Capabilities.from_bytes ("multi_ack side-band side-band-64k multi_ack_detailed"))).1

/-- C2: for `Command.Fetch` under protocol V1 with the capability set parsed
from `multi_ack side-band side-band-64k multi_ack_detailed`, `default_features`
returns exactly `[side-band-64k, multi_ack_detailed, agent]`, in that order. -/
theorem default_features_v1_layered_scenario :
    Command.Fetch.default_features Protocol.V1
        (Capabilities.from_bytes ("multi_ack side-band side-band-64k multi_ack_detailed"))
      = [("side-band-64k", none), ("multi_ack_detailed", none), agent] := by
  decide

/-- C5: for every command, protocol version and capability set, the result of
`Command.default_features` ends with the `agent` feature (fixed name `agent`,
carrying a client version string), the agent feature occurs exactly once, it
is appended unconditionally, and a command with no optional features
(`LsRefs`) yields exactly `[agent]`. -/
theorem default_features_agent_terminated (cmd : Command) (version : Protocol)
    (caps : Capabilities) :
    (cmd.default_features version caps).getLast? = some agent
    ∧ agent.1 = "agent"
    ∧ agent.2.isSome = true
    ∧ ((cmd.default_features version caps).map Prod.fst).count ("agent") = 1
    ∧ (cmd = Command.LsRefs → cmd.default_features version caps = [agent]) := by
  refine ⟨?_, rfl, rfl, ?_, ?_⟩
  · cases version
    · exact List.getLast?_concat _
    · exact List.getLast?_concat _
  · cases version
    · rw [map_fst_default_features_v1, List.count_append]
      have h0 : List.count ("agent") ((cmd.all_features .V1).filter (keepFeatureV1 caps)) = 0 :=
        List.count_eq_zero_of_not_mem (fun hmem =>
          agent_not_mem_all_features cmd .V1 (List.mem_filter.mp hmem).1)
      rw [h0]
      decide
    · rw [map_fst_default_features_v2, List.count_append]
      have h0 : List.count ("agent") (cmd.v2Tokens caps) = 0 :=
        List.count_eq_zero_of_not_mem (fun hmem =>
          agent_not_mem_all_features cmd .V2 (mem_v2Tokens _ _ _ hmem))
      rw [h0]
      decide
  · intro hcmd
    subst hcmd
    cases version
    · rfl
    · simp [Command.default_features, v2Tokens_lsrefs]

/-- Witness for C5: the ref-listing command under V2 with an unrelated
capability set yields exactly `[agent]`. -/
theorem default_features_agent_terminated_witness :
    Command.LsRefs.default_features Protocol.V2
        (Capabilities.from_lines ("version 2\nsomething-else=does not matter as there are none"))
      = [agent] :=
  (default_features_agent_terminated Command.LsRefs Protocol.V2
    (Capabilities.from_lines ("version 2\nsomething-else=does not matter as there are none"))).2.2.2.2
    rfl

/-- C8: `Command.LsRefs.initial_arguments` returns exactly `[symrefs, peel]`
for every input feature list; the function takes no protocol version, so the
result is version-independent. -/
theorem ls_refs_initial_arguments_constant (features : List Feature) :
    Command.LsRefs.initial_arguments features = ["symrefs", "peel"] := rfl
/-- C3 counterexample: with the layered capability set of the unit tests the
selected features (excluding the final agent entry) are
`[side-band-64k, multi_ack_detailed]`, which does not respect the claimed
table order, where the `multi_ack` group precedes the `side-band` group. -/
theorem fetch_v1_claimed_order_counterexample :
    ¬ (((Command.Fetch.default_features Protocol.V1
          (Capabilities.from_bytes ("multi_ack side-band side-band-64k multi_ack_detailed"))).map
            Prod.fst).dropLast.Sublist specClaimedFetchOrder) := by
  decide

/-- C3 amended: for `Command.Fetch` under V1 and every capability set, the
selected features excluding the final agent entry always appear in the order
of the fixed candidate table `fetchFeaturesV1` (`multi_ack`, `thin-pack`,
`side-band`, `side-band-64k`, `ofs-delta`, `shallow`, `deepen-since`,
`deepen-not`, `deepen-relative`, `multi_ack_detailed`,
`allow-tip-sha1-in-want`, `allow-reachable-sha1-in-want`, `no-done`,
`filter`), and at most one member per mutually-exclusive group is selected,
the higher-priority member winning whenever the server advertises it. -/
theorem fetch_v1_walks_canonical_table (caps : Capabilities) :
    ((Command.Fetch.default_features Protocol.V1 caps).map Prod.fst).dropLast.Sublist
        fetchFeaturesV1
    ∧ (caps.contains ("multi_ack_detailed") = true →
        "multi_ack" ∉ (Command.Fetch.default_features Protocol.V1 caps).map Prod.fst
          ∧ "multi_ack_detailed" ∈ (Command.Fetch.default_features Protocol.V1 caps).map
              Prod.fst)
    ∧ (caps.contains ("side-band-64k") = true →
        "side-band" ∉ (Command.Fetch.default_features Protocol.V1 caps).map Prod.fst
          ∧ "side-band-64k" ∈ (Command.Fetch.default_features Protocol.V1 caps).map
              Prod.fst) := by
  refine ⟨?_, ?_, ?_⟩
  · rw [map_fst_default_features_v1, List.dropLast_concat]
    exact List.filter_sublist _
  · intro hmad
    constructor
    · intro hma
      rcases (mem_fst_default_features_v1 Command.Fetch caps _).mp hma with ⟨_, hk⟩ | h
      · have hfalse := keepFeatureV1_multi_ack _ hk
        rw [hmad] at hfalse
        exact absurd hfalse (by decide)
      · exact absurd h (by decide)
    · apply (mem_fst_default_features_v1 Command.Fetch caps _).mpr
      left
      refine ⟨by decide, ?_⟩
      simp [keepFeatureV1, hmad]
  · intro h64
    constructor
    · intro hsb
      rcases (mem_fst_default_features_v1 Command.Fetch caps _).mp hsb with ⟨_, hk⟩ | h
      · have hfalse := keepFeatureV1_side_band _ hk
        rw [h64] at hfalse
        exact absurd hfalse (by decide)
      · exact absurd h (by decide)
    · apply (mem_fst_default_features_v1 Command.Fetch caps _).mpr
      left
      refine ⟨by decide, ?_⟩
      simp [keepFeatureV1, h64]

/-- Witness for the amended C3 at the layered capability set: `multi_ack` is
suppressed and `multi_ack_detailed` selected. -/
theorem fetch_v1_walks_canonical_table_witness :
    "multi_ack" ∉ (Command.Fetch.default_features Protocol.V1
        (Capabilities.from_bytes ("multi_ack side-band side-band-64k multi_ack_detailed"))).map
          Prod.fst
      ∧ "multi_ack_detailed" ∈ (Command.Fetch.default_features Protocol.V1
        (Capabilities.from_bytes ("multi_ack side-band side-band-64k multi_ack_detailed"))).map
          Prod.fst :=
  (fetch_v1_walks_canonical_table
    (Capabilities.from_bytes ("multi_ack side-band side-band-64k multi_ack_detailed"))).2.1
    (by decide)

/-- C4: for every command, protocol version and capability set, no feature
returned by `Command.default_features` is named `include-tag` or `no-progress`
or is a symref advertisement entry, even when the server advertises them. -/
theorem default_features_never_auto_enabled (cmd : Command) (version : Protocol)
    (caps : Capabilities) (s : String)
    (h : s ∈ (cmd.default_features version caps).map Prod.fst) :
    s ≠ "include-tag" ∧ s ≠ "no-progress" ∧ strStartsWith ("symref") s = false := by
  have hs : s ∈ cmd.all_features version ∨ s = "agent" := by
    cases version
    · rcases (mem_fst_default_features_v1 cmd caps s).mp h with ⟨hmem, _⟩ | h'
      · exact Or.inl hmem
      · exact Or.inr h'
    · exact mem_fst_default_features_v2 cmd caps s h
  clear h
  rcases hs with hmem | rfl
  · cases cmd <;> cases version <;> revert s <;> decide
  · decide

/-- Witness for C4 at the full GitHub-style V1 capability line, which
advertises `include-tag`, `no-progress` and a symref entry. -/
theorem default_features_never_auto_enabled_witness :
    "filter" ≠ "include-tag" ∧ "filter" ≠ "no-progress"
      ∧ strStartsWith ("symref") "filter" = false :=
  default_features_never_auto_enabled Command.Fetch Protocol.V1
    (Capabilities.from_bytes
      ("multi_ack thin-pack side-band ofs-delta shallow deepen-since deepen-not deepen-relative no-progress include-tag allow-tip-sha1-in-want allow-reachable-sha1-in-want no-done symref=HEAD:refs/heads/main filter agent=git/github-gdf51a71f0236"))
    "filter" (by decide)
lemma any_fst_eq_iff (features : List Feature) (s : String) :
    features.any (fun x => x.1 == s) = true ↔ ∃ v, (s, v) ∈ features := by
  rw [List.any_eq_true]
  constructor
  · rintro ⟨x, hx, hb⟩
    refine ⟨x.2, ?_⟩
    have hx1 : x.1 = s := by simpa using hb
    rw [← hx1]
    exact hx
  · rintro ⟨v, hv⟩
    exact ⟨(s, v), hv, by simp⟩

/-- C6: for `Command.Fetch` under V2, `default_features` consults only the
capability named `fetch`; when that capability carries a value, the selected
features (excluding the final agent entry) are exactly the recognized tokens
of its whitespace-separated value in server order, unrecognized tokens being
silently ignored; in particular, for the value
`shallow filter ref-in-want sideband-all packfile-uris` the result is those
five features in server order followed by `agent`. -/
theorem fetch_v2_server_ordered_features (caps caps' : Capabilities) (v : String)
    (hv : caps.value ("fetch") = some (some v)) :
    (((Command.Fetch.default_features Protocol.V2 caps).map Prod.fst).dropLast.Sublist
        (splitTokens v))
    ∧ (∀ t ∈ splitTokens v, t ∈ fetchFeaturesV2 →
        t ∈ ((Command.Fetch.default_features Protocol.V2 caps).map Prod.fst).dropLast)
    ∧ (∀ t ∈ ((Command.Fetch.default_features Protocol.V2 caps).map Prod.fst).dropLast,
        t ∈ fetchFeaturesV2)
    ∧ (caps.value ("fetch") = caps'.value ("fetch") →
        Command.Fetch.default_features Protocol.V2 caps
          = Command.Fetch.default_features Protocol.V2 caps')
    ∧ Command.Fetch.default_features Protocol.V2
          (Capabilities.from_lines
            ("version 2\nfetch=shallow filter ref-in-want sideband-all packfile-uris"))
        = [("shallow", none), ("filter", none), ("ref-in-want", none), ("sideband-all", none),
           ("packfile-uris", none), agent] := by
  have hdrop : ((Command.Fetch.default_features Protocol.V2 caps).map Prod.fst).dropLast
      = (splitTokens v).filter (fun t => (Command.Fetch.all_features .V2).contains t) := by
    rw [map_fst_default_features_v2, List.dropLast_concat,
      v2Tokens_eq_of_value Command.Fetch caps v hv]
  refine ⟨?_, ?_, ?_, ?_, ?_⟩
  · rw [hdrop]
    exact List.filter_sublist _
  · intro t ht hrec
    rw [hdrop]
    refine List.mem_filter.mpr ⟨ht, ?_⟩
    simpa [Command.all_features] using hrec
  · intro t ht
    rw [hdrop] at ht
    have hc := (List.mem_filter.mp ht).2
    simpa [Command.all_features] using hc
  · intro he
    have htok : Command.Fetch.v2Tokens caps = Command.Fetch.v2Tokens caps' := by
      unfold Command.v2Tokens
      rw [show Command.Fetch.as_str = "fetch" from rfl, he]
    simp [Command.default_features, htok]
  · decide

/-- Witness for C6 at the capability set of the unit tests. -/
theorem fetch_v2_server_ordered_features_witness :
    ((Command.Fetch.default_features Protocol.V2
        (Capabilities.from_lines
          ("version 2\nfetch=shallow filter ref-in-want sideband-all packfile-uris"))).map
          Prod.fst).dropLast.Sublist
      (splitTokens ("shallow filter ref-in-want sideband-all packfile-uris")) :=
  (fetch_v2_server_ordered_features
    (Capabilities.from_lines
      ("version 2\nfetch=shallow filter ref-in-want sideband-all packfile-uris"))
    (Capabilities.from_lines
      ("version 2\nfetch=shallow filter ref-in-want sideband-all packfile-uris"))
    "shallow filter ref-in-want sideband-all packfile-uris" (by decide)).1

lemma mem_fetch_initial_arguments (features : List Feature) (s : String) :
    s ∈ Command.Fetch.initial_arguments features
      ↔ s ∈ ["thin-pack", "include-tag", "ofs-delta"]
        ∨ (s ∈ ["sideband-all", "ref-in-want", "packfile-uris"]
            ∧ features.any (fun x => x.1 == s) = true) := by
  simp [Command.initial_arguments, List.mem_filter]
  tauto

/-- C7: `Command.Fetch.initial_arguments` always starts with the three fixed
lines `thin-pack`, `include-tag`, `ofs-delta`; each of `sideband-all`,
`ref-in-want`, `packfile-uris` appears (after them, in that fixed order)
exactly when the same-named feature is in the input list; and the features
`shallow` and `filter` never contribute an argument line. -/
theorem fetch_initial_arguments_spec (features : List Feature) :
    (Command.Fetch.initial_arguments features).take 3
        = ["thin-pack", "include-tag", "ofs-delta"]
    ∧ ("sideband-all" ∈ Command.Fetch.initial_arguments features
        ↔ ∃ v, ("sideband-all", v) ∈ features)
    ∧ ("ref-in-want" ∈ Command.Fetch.initial_arguments features
        ↔ ∃ v, ("ref-in-want", v) ∈ features)
    ∧ ("packfile-uris" ∈ Command.Fetch.initial_arguments features
        ↔ ∃ v, ("packfile-uris", v) ∈ features)
    ∧ ((Command.Fetch.initial_arguments features).drop 3).Sublist
        ["sideband-all", "ref-in-want", "packfile-uris"]
    ∧ "shallow" ∉ Command.Fetch.initial_arguments features
    ∧ "filter" ∉ Command.Fetch.initial_arguments features := by
  refine ⟨rfl, ?_, ?_, ?_, List.filter_sublist _, ?_, ?_⟩
  · rw [mem_fetch_initial_arguments, ← any_fst_eq_iff features ("sideband-all")]
    simp
  · rw [mem_fetch_initial_arguments, ← any_fst_eq_iff features ("ref-in-want")]
    simp
  · rw [mem_fetch_initial_arguments, ← any_fst_eq_iff features ("packfile-uris")]
    simp
  · intro h
    rcases (mem_fetch_initial_arguments features ("shallow")).mp h with h' | ⟨h', _⟩ <;>
      exact absurd h' (by decide)
  · intro h
    rcases (mem_fetch_initial_arguments features ("filter")).mp h with h' | ⟨h', _⟩ <;>
      exact absurd h' (by decide)

/-- Witness for C7: with the `sideband-all` feature selected, the argument
line `sideband-all` is emitted. -/
theorem fetch_initial_arguments_spec_witness :
    "sideband-all" ∈ Command.Fetch.initial_arguments [("sideband-all", none)] :=
  ((fetch_initial_arguments_spec [("sideband-all", none)]).2.1).mpr ⟨none, by decide⟩
lemma no_overlap_with_ref_prefix_arg (p : String) (hlen : p.data.length ≤ "ref-prefix ".data.length)
    (hnp : ¬ (p.data <+: "ref-prefix ".data)) (a : String)
    (h : strStartsWith ("ref-prefix ") a = true) : strStartsWith p a = false := by
  cases hb : strStartsWith p a with
  | false => rfl
  | true =>
    exfalso
    have hp1 : p.data <+: a.data := List.isPrefixOf_iff_prefix.mp hb
    have hp2 : "ref-prefix ".data <+: a.data := List.isPrefixOf_iff_prefix.mp h
    exact hnp (List.prefix_of_prefix_length_le hp1 hp2 hlen)

/-- C9: `Command.LsRefs.validate_argument_prefixes_or_panic` faults (returns
`false`) whenever the argument list contains an argument carrying the
`ref-prefix ` prefix under protocol V1, for every capability set and feature
list; it does not fault for the identical argument under protocol V2; and its
decision never depends on the capability set or the feature list. -/
theorem ls_refs_validate_ref_prefix_rule (caps caps2 : Capabilities)
    (features features2 : List Feature) (args : List Argument) (a : Argument)
    (hpre : strStartsWith ("ref-prefix ") a = true) :
    (a ∈ args →
      Command.LsRefs.validate_argument_prefixes_or_panic Protocol.V1 caps args features
        = false)
    ∧ Command.LsRefs.validate_argument_prefixes_or_panic Protocol.V2 caps [a] features = true
    ∧ (∀ version : Protocol,
        Command.LsRefs.validate_argument_prefixes_or_panic version caps args features
          = Command.LsRefs.validate_argument_prefixes_or_panic version caps2 args features2) := by
  have h1 := no_overlap_with_ref_prefix_arg ("symrefs") (by decide) (by decide) a hpre
  have h2 := no_overlap_with_ref_prefix_arg ("peel") (by decide) (by decide) a hpre
  refine ⟨?_, ?_, fun _ => rfl⟩
  · intro hmem
    unfold Command.validate_argument_prefixes_or_panic
    rw [List.all_eq_false]
    refine ⟨a, hmem, ?_⟩
    simp [Command.all_argument_prefixes, h1, h2]
  · simp [Command.validate_argument_prefixes_or_panic, Command.all_argument_prefixes, hpre]

/-- Witness for C9 at the `ref-prefix hello/` argument of the unit tests. -/
theorem ls_refs_validate_ref_prefix_rule_witness :
    Command.LsRefs.validate_argument_prefixes_or_panic Protocol.V1
        (Capabilities.from_bytes ("do-not-matter")) ["ref-prefix hello/"] [] = false
    ∧ Command.LsRefs.validate_argument_prefixes_or_panic Protocol.V2
        (Capabilities.from_bytes ("do-not-matter")) ["ref-prefix hello/"] [] = true :=
  ⟨(ls_refs_validate_ref_prefix_rule (Capabilities.from_bytes ("do-not-matter"))
      (Capabilities.from_bytes ("do-not-matter")) [] [] ["ref-prefix hello/"]
      "ref-prefix hello/" (by decide)).1 (by decide),
   (ls_refs_validate_ref_prefix_rule (Capabilities.from_bytes ("do-not-matter"))
      (Capabilities.from_bytes ("do-not-matter")) [] [] ["ref-prefix hello/"]
      "ref-prefix hello/" (by decide)).2.1⟩
lemma peel_eq_of_kind (odb : Nat → Option ObjectRef) (fuel : Nat) (kind : Kind)
    (self : ObjectRef) (h : self.kind = kind) :
    peel_to_kind odb fuel kind self = some (Except.ok self) := by
  unfold peel_to_kind
  rw [if_pos h]

lemma peel_eq_notfound (odb : Nat → Option ObjectRef) (fuel : Nat) (kind : Kind)
    (self : ObjectRef) (htb : self.kind = Kind.Tree ∨ self.kind = Kind.Blob)
    (hne : self.kind ≠ kind) :
    peel_to_kind odb fuel kind self
      = some (Except.error (PeelError.NotFound self.kind kind)) := by
  obtain ⟨i, k, l⟩ := self
  cases k with
  | Tree =>
    conv_lhs => unfold peel_to_kind
    rw [if_neg hne]
  | Blob =>
    conv_lhs => unfold peel_to_kind
    rw [if_neg hne]
  | Commit => rcases htb with h | h <;> exact absurd h (by simp)
  | Tag => rcases htb with h | h <;> exact absurd h (by simp)

lemma peel_step (odb : Nat → Option ObjectRef) (fuel : Nat) (kind : Kind)
    (self : ObjectRef) (hct : self.kind = Kind.Commit ∨ self.kind = Kind.Tag)
    (hne : self.kind ≠ kind) :
    peel_to_kind odb (fuel + 1) kind self
      = match find_existing_object odb self.link with
        | Except.ok next => peel_to_kind odb fuel kind next
        | Except.error e => some (Except.error e) := by
  obtain ⟨i, k, l⟩ := self
  cases k with
  | Commit =>
    conv_lhs => unfold peel_to_kind
    rw [if_neg hne]
  | Tag =>
    conv_lhs => unfold peel_to_kind
    rw [if_neg hne]
  | Tree => rcases hct with h | h <;> exact absurd h (by simp)
  | Blob => rcases hct with h | h <;> exact absurd h (by simp)

lemma peel_ok_kind (odb : Nat → Option ObjectRef) (kind : Kind) :
    ∀ (fuel : Nat) (self r : ObjectRef),
      peel_to_kind odb fuel kind self = some (Except.ok r) → r.kind = kind := by
  intro fuel
  induction fuel with
  | zero =>
    intro self r h
    by_cases hk : self.kind = kind
    · rw [peel_eq_of_kind odb 0 kind self hk] at h
      have hr : self = r := by simpa using h
      rw [← hr]
      exact hk
    · obtain ⟨i, k, l⟩ := self
      cases k with
      | Tree =>
        rw [peel_eq_notfound odb 0 kind ⟨i, Kind.Tree, l⟩ (Or.inl rfl) hk] at h
        simp at h
      | Blob =>
        rw [peel_eq_notfound odb 0 kind ⟨i, Kind.Blob, l⟩ (Or.inr rfl) hk] at h
        simp at h
      | Commit =>
        conv_lhs at h => unfold peel_to_kind
        rw [if_neg hk] at h
        simp at h
      | Tag =>
        conv_lhs at h => unfold peel_to_kind
        rw [if_neg hk] at h
        simp at h
  | succ n ih =>
    intro self r h
    by_cases hk : self.kind = kind
    · rw [peel_eq_of_kind odb (n + 1) kind self hk] at h
      have hr : self = r := by simpa using h
      rw [← hr]
      exact hk
    · obtain ⟨i, k, l⟩ := self
      cases k with
      | Tree =>
        rw [peel_eq_notfound odb (n + 1) kind ⟨i, Kind.Tree, l⟩ (Or.inl rfl) hk] at h
        simp at h
      | Blob =>
        rw [peel_eq_notfound odb (n + 1) kind ⟨i, Kind.Blob, l⟩ (Or.inr rfl) hk] at h
        simp at h
      | Commit =>
        rw [peel_step odb n kind ⟨i, Kind.Commit, l⟩ (Or.inl rfl) hk] at h
        cases hf : find_existing_object odb (ObjectRef.mk i Kind.Commit l).link with
        | ok next =>
          rw [hf] at h
          exact ih next r h
        | error e =>
          rw [hf] at h
          simp at h
      | Tag =>
        rw [peel_step odb n kind ⟨i, Kind.Tag, l⟩ (Or.inr rfl) hk] at h
        cases hf : find_existing_object odb (ObjectRef.mk i Kind.Tag l).link with
        | ok next =>
          rw [hf] at h
          exact ih next r h
        | error e =>
          rw [hf] at h
          simp at h

/-- C10: `peel_to_kind` returns the object unchanged as soon as its kind
equals the requested kind; a commit is replaced by the object its tree id
names and a tag by the object its target id names; reaching a tree or blob
whose kind differs from the requested kind yields the `NotFound` error
carrying the actual kind encountered and the expected kind; and every
successful result has the requested kind, never anything else. -/
theorem peel_to_kind_spec (odb : Nat → Option ObjectRef) (fuel : Nat) (kind : Kind)
    (self : ObjectRef) :
    (self.kind = kind → peel_to_kind odb fuel kind self = some (Except.ok self))
    ∧ ((self.kind = Kind.Tree ∨ self.kind = Kind.Blob) → self.kind ≠ kind →
        peel_to_kind odb fuel kind self
          = some (Except.error (PeelError.NotFound self.kind kind)))
    ∧ ((self.kind = Kind.Commit ∨ self.kind = Kind.Tag) → self.kind ≠ kind →
        peel_to_kind odb (fuel + 1) kind self
          = match find_existing_object odb self.link with
            | Except.ok next => peel_to_kind odb fuel kind next
            | Except.error e => some (Except.error e))
    ∧ (∀ r, peel_to_kind odb fuel kind self = some (Except.ok r) → r.kind = kind) :=
  ⟨peel_eq_of_kind odb fuel kind self,
   peel_eq_notfound odb fuel kind self,
   peel_step odb fuel kind self,
   fun r => peel_ok_kind odb kind fuel self r⟩

/-- Witness for C10: peeling a tree to a blob fails with `NotFound`, carrying
the actual and the expected kind. -/
theorem peel_to_kind_spec_witness :
    peel_to_kind sampleOdb 3 Kind.Blob (ObjectRef.mk 2 Kind.Tree 0)
      = some (Except.error (PeelError.NotFound Kind.Tree Kind.Blob)) :=
  (peel_to_kind_spec sampleOdb 3 Kind.Blob ⟨2, Kind.Tree, 0⟩).2.1 (Or.inl rfl) (by decide)
